import Mathlib

/-!
Verification development for the Discord adapter message module
(`src/nonebot/adapters/discord/message.py`): the segment data model, the
inline-markup tokenizer (`Message._construct`), the message container
operations (`__add__` / `__radd__` / `extract_content`), the inbound
adapter (`Message.from_guild_message`) and the outbound serializer
(`parse_message`).

Collaborator types that the module imports from elsewhere in the package
(`.api`, `.utils`) are modelled from the specification; each such
definition carries a doc comment starting with `Modelled from the spec:`.
All other definitions are translated directly from the source file.
-/

namespace Discord

/-- Modelled from the spec: the escaping utility (`utils.unescape`, not part
of the sources given) reverses the literal-escaping of the markup sentinel:
the two-character sequence backslash-`<` becomes `<`, and a doubled
backslash becomes a single backslash; all other characters are unchanged. -/
def unescapeAux : List Char → List Char
  | [] => []
  | [c] => [c]
  | c :: c' :: rest =>
      if c = '\\' && (c' = '<' || c' = '\\') then c' :: unescapeAux rest
      else c :: unescapeAux (c' :: rest)

/-- Modelled from the spec: string version of `unescapeAux`. -/
def unescape (s : String) : String :=
  String.mk (unescapeAux s.data)

/-- Numeric value of a decimal digit character, as in `int(c)` on a digit. -/
def charDigit (c : Char) : Nat := c.toNat - '0'.toNat

/-- Decimal reading of a digit list, as Python `int` does on a digit string. -/
def parseNatL (cs : List Char) : Nat :=
  cs.foldl (fun a c => 10 * a + charDigit c) 0

/-- Model of Python `str.isdigit`: true iff nonempty and all characters are
decimal digits. -/
def strIsDigits (cs : List Char) : Bool :=
  !cs.isEmpty && cs.all Char.isDigit

/-- Decimal rendering of a natural number (the behaviour of Python `str`
on a nonnegative `int`). -/
def natStr (n : Nat) : String :=
  String.mk (if n = 0 then ['0'] else (Nat.digits 10 n).reverse.map Nat.digitChar)

/-- Decimal rendering of an integer (the behaviour of Python `str` on `int`). -/
def intStr (i : Int) : String :=
  if i < 0 then "-" ++ natStr i.natAbs else natStr i.toNat

/-- Validity of a snowflake written as a string: nonempty, all decimal digits. -/
def isSnowflakeStr (s : String) : Bool :=
  !s.data.isEmpty && s.data.all Char.isDigit

/-- Modelled from the spec: the numeric identifier type (`Snowflake`, from
`.api`, not part of the sources given) — "IDs are numeric identifiers
represented as decimal strings or 64-bit integers interchangeably" — kept
here in its decimal-string representation. -/
def Snowflake := { s : String // isSnowflakeStr s = true }

instance : DecidableEq Snowflake := Subtype.instDecidableEq

/-- Modelled from the spec: constructing a `Snowflake` from a string
normalizes a decimal string and fails (raises `ValueError`) on a
non-numeric string. -/
def Snowflake.ofString (s : String) : Option Snowflake :=
  if h : isSnowflakeStr s = true then some ⟨s, h⟩ else none

/-- Decimal text of a snowflake, as interpolated by the render forms. -/
def Snowflake.str (sn : Snowflake) : String := sn.val

/-- Modelled from the spec: the timestamp-style enumeration (`TimeStampStyle`
from `.api`, not part of the sources given), one member per display style
letter of the platform. -/
inductive TimeStampStyle where
  | shortTime
  | longTime
  | shortDate
  | longDate
  | shortDateTime
  | longDateTime
  | relativeTime
deriving DecidableEq

/-- Modelled from the spec: the string value of each enumeration member. -/
def TimeStampStyle.value : TimeStampStyle → String
  | .shortTime => "t"
  | .longTime => "T"
  | .shortDate => "d"
  | .longDate => "D"
  | .shortDateTime => "f"
  | .longDateTime => "F"
  | .relativeTime => "R"

/-- Modelled from the spec: constructing an enumeration member from a string
(`TimeStampStyle(s)`) succeeds exactly on member values and fails
(raises `ValueError`) otherwise. -/
def TimeStampStyle.ofString (s : String) : Option TimeStampStyle :=
  if s = "t" then some .shortTime
  else if s = "T" then some .longTime
  else if s = "d" then some .shortDate
  else if s = "D" then some .longDate
  else if s = "f" then some .shortDateTime
  else if s = "F" then some .longDateTime
  else if s = "R" then some .relativeTime
  else none

/-- Modelled from the spec: the file object (`File` from `.api`, not part of
the sources given): a filename together with raw byte content. -/
structure File where
  filename : String
  content : List Nat
deriving DecidableEq

/-- Modelled from the spec: the outbound-attachment-metadata object
(`AttachmentSend` from `.api`, not part of the sources given): a filename
and an optional description. -/
structure AttachmentSend where
  filename : String
  description : Option String
deriving DecidableEq

/-- Modelled from the spec: the embed object (`Embed` from `.api`, not part
of the sources given), consumed as an already-validated structure whose
contents are opaque to this module apart from its `type` tag used in the
debug render form. -/
structure Embed where
  type : String
deriving DecidableEq

/-- Modelled from the spec: an element that can sit inside a row-grouping
component (rows do not nest on the platform): a button, a select menu, or
a text input. -/
inductive SubComponent where
  | button (label : String)
  | selectMenu (custom_id : String)
  | textInput (custom_id : String)
deriving DecidableEq

/-- Modelled from the spec: the component object (from `.api`, not part of
the sources given): either a row-grouping of elements (`ActionRow`), a
bare interactive element (`Button` / `SelectMenu`), or a standalone text
input (`TextInput`). -/
inductive Component where
  | actionRow (components : List SubComponent)
  | button (label : String)
  | selectMenu (custom_id : String)
  | textInput (custom_id : String)
deriving DecidableEq

/-- Tag telling whether a component is a bare interactive element
(a `Button` or a `SelectMenu`). -/
def Component.isInteractive : Component → Bool
  | .button _ => true
  | .selectMenu _ => true
  | _ => false

/-- Modelled from the spec: the numeric component-type discriminator of each
component shape (`ComponentType` from `.api`, not part of the sources
given), used only in the opaque debug render form. -/
def Component.typeVal : Component → Nat
  | .actionRow _ => 1
  | .button _ => 2
  | .selectMenu _ => 3
  | .textInput _ => 4

/-- Modelled from the spec: the message-reference descriptor
(`MessageReference` from `.api`, not part of the sources given): target
message id with optional channel/guild ids and fail-if-missing flag;
absent fields model the `UNSET` sentinel. -/
structure MessageReference where
  message_id : Option Snowflake
  channel_id : Option Snowflake
  guild_id : Option Snowflake
  fail_if_not_exists : Option Bool
deriving DecidableEq

/-- Modelled from the spec: the description attached to an inbound
attachment record, which may be a plain string or some non-string value
(absent, null, or another shape); `from_guild_message` checks
`isinstance(description, str)`. -/
inductive InboundDesc where
  | str (s : String)
  | notStr
deriving DecidableEq

/-- Modelled from the spec: one attachment record of an inbound message
event, carrying filename and description metadata. -/
structure AttachmentGet where
  filename : String
  description : InboundDesc
deriving DecidableEq

/-- Modelled from the spec: the received message event record (`MessageGet`
from `.api`, not part of the sources given) with the four fields the
inbound adapter reads, plus the `mention_everyone` flag. -/
structure MessageGet where
  mention_everyone : Bool
  content : String
  attachments : List AttachmentGet
  embeds : List Embed
  components : List Component
deriving DecidableEq

/-- Segment taxonomy: one constructor per `MessageSegment` subclass of the
source, holding the fields of its `data` dict. -/
inductive Segment where
  | text (text : String)
  | mention_user (user_id : Snowflake)
  | mention_role (role_id : Snowflake)
  | mention_channel (channel_id : Snowflake)
  | mention_everyone
  | custom_emoji (name : String) (id : String) (animated : Option Bool)
  | timestamp (timestamp : Int) (style : Option TimeStampStyle)
  | sticker (id : Snowflake)
  | embed (embed : Embed)
  | component (component : Component)
  | attachment (attachment : AttachmentSend) (file : Option File)
  | reference (reference : MessageReference)
deriving DecidableEq

/-- Discriminator tag of a segment (the `type` field of `MessageSegment`),
with the literal strings of `SEGMENT_TYPE_MAP`. -/
def Segment.type : Segment → String
  | .text _ => "text"
  | .mention_user _ => "mention_user"
  | .mention_role _ => "mention_role"
  | .mention_channel _ => "mention_channel"
  | .mention_everyone => "mention_everyone"
  | .custom_emoji _ _ _ => "custom_emoji"
  | .timestamp _ _ => "timestamp"
  | .sticker _ => "sticker"
  | .embed _ => "embed"
  | .component _ => "component"
  | .attachment _ _ => "attachment"
  | .reference _ => "reference"

/-- Render form of a segment: the `__str__` method of each
`MessageSegment` subclass. -/
def segStr : Segment → String
  | .text t => t
  | .mention_user u => "<@" ++ u.str ++ ">"
  | .mention_role r => "<@&" ++ r.str ++ ">"
  | .mention_channel c => "<#" ++ c.str ++ ">"
  | .mention_everyone => "@everyone"
  | .custom_emoji n i a =>
      if a.getD false then "<a:" ++ n ++ ":" ++ i ++ ">"
      else "<:" ++ n ++ ":" ++ i ++ ">"
  | .timestamp t st =>
      "<t:" ++ intStr t
        ++ (match st with | some s => ":" ++ s.value | none => "") ++ ">"
  | .sticker id => "<Sticker:" ++ id.str ++ ">"
  | .embed e => "<Embed:" ++ e.type ++ ">"
  | .component c => "<Component:" ++ natStr c.typeVal ++ ">"
  | .attachment a _ => "<Attachment:" ++ a.filename ++ ">"
  | .reference r =>
      "<Reference:" ++ (match r.message_id with
        | some s => s.str
        | none => "UNSET") ++ ">"

/-- Payload accessor `data["embed"]` restricted to embed segments. -/
def Segment.embedOf : Segment → Option Embed
  | .embed e => some e
  | _ => none

/-- Payload accessor `data["reference"]` restricted to reference segments. -/
def Segment.refOf : Segment → Option MessageReference
  | .reference r => some r
  | _ => none

/-- Payload accessor `data["component"]` restricted to component segments. -/
def Segment.componentOf : Segment → Option Component
  | .component c => some c
  | _ => none

/-- Payload accessor `data["id"]` restricted to sticker segments. -/
def Segment.stickerOf : Segment → Option Snowflake
  | .sticker i => some i
  | _ => none

/-- Payload accessor `data["attachment"]` restricted to attachment segments. -/
def Segment.attachmentOf : Segment → Option AttachmentSend
  | .attachment a _ => some a
  | _ => none

/-- Payload accessor `data["file"]` restricted to attachment segments
(`none` both off-kind and when the segment carries no file). -/
def Segment.fileOf : Segment → Option File
  | .attachment _ f => f
  | _ => none

/-- Combined payload of an attachment segment: metadata together with the
optional file. -/
def Segment.attPair : Segment → Option (AttachmentSend × Option File)
  | .attachment a f => some (a, f)
  | _ => none

/-- Tag telling whether a segment is a text segment (`is_text`). -/
def Segment.isTextSeg : Segment → Bool
  | .text _ => true
  | _ => false

/-- Message container: an ordered sequence of segments. -/
abbrev Message := List Segment

namespace MessageSegment

/-- Factory `MessageSegment.text`. -/
def text (content : String) : Segment := Segment.text content

/-- First argument accepted by the factory `MessageSegment.attachment`:
a filename string, a `File`, an `AttachmentSend`, or (`other`) a value of
any type outside these three. -/
inductive AttachSource where
  | str (filename : String)
  | file (f : File)
  | attachmentSend (a : AttachmentSend)
  | other
deriving DecidableEq

/-- Factory `MessageSegment.attachment`: dispatches on the type of `file`,
building the metadata and optional file payload; raises `TypeError` on an
unrecognized source type. -/
def attachment (file : AttachSource) (description : Option String)
    (content : Option (List Nat)) : Except String Segment :=
  match file with
  | .str filename =>
      match content with
      | none => .ok (Segment.attachment ⟨filename, description⟩ none)
      | some c => .ok (Segment.attachment ⟨filename, description⟩ (some ⟨filename, c⟩))
  | .file f =>
      .ok (Segment.attachment ⟨f.filename, description⟩ (some ⟨f.filename, f.content⟩))
  | .attachmentSend a =>
      match content with
      | none => .ok (Segment.attachment ⟨a.filename, a.description⟩ none)
      | some c => .ok (Segment.attachment ⟨a.filename, a.description⟩ (some ⟨a.filename, c⟩))
  | .other => .error "file must be str, File or AttachmentSend"

/-- Factory `MessageSegment.component`: a bare `Button` or `SelectMenu` is
wrapped into an `ActionRow` before being stored as the payload. -/
def component : Component → Segment
  | .button l => Segment.component (.actionRow [.button l])
  | .selectMenu i => Segment.component (.actionRow [.selectMenu i])
  | c => Segment.component c

end MessageSegment

/-- Model of Python `"…".split(":")` on a character list: splits at every
colon, keeping empty parts, with `[[]]` for the empty input. -/
def splitColon : List Char → List (List Char)
  | [] => [[]]
  | c :: rest =>
      if c = ':' then [] :: splitColon rest
      else
        match splitColon rest with
        | head :: tail => (c :: head) :: tail
        | [] => [[c]]

/-- Alternatives of the markup grammar's `type` group, one per branch of
the alternation `@!|@&|@|#|/|:|a:|t:`. -/
inductive MarkType where
  | userBang
  | user
  | role
  | channel
  | slash
  | emoji (animated : Bool)
  | time
deriving DecidableEq

/-- Literal characters of each `type` alternative. -/
def tagStr : MarkType → List Char
  | .userBang => ['@', '!']
  | .user => ['@']
  | .role => ['@', '&']
  | .channel => ['#']
  | .slash => ['/']
  | .emoji true => ['a', ':']
  | .emoji false => [':']
  | .time => ['t', ':']

/-- Whether the first list is an initial run of the second. -/
def listStarts : List Char → List Char → Bool
  | [], _ => true
  | _ :: _, [] => false
  | p :: ps, c :: cs => p == c && listStarts ps cs

/-- Continuation of the lazy `param` scan (`[^<]+?` followed by `>`): with
at least one character already taken (held reversed in `acc`), close at
the first `>`, fail on `<` or end of input. -/
def closeParam : List Char → List Char → Option (List Char × List Char)
  | acc, c :: rest =>
      if c = '>' then some (acc.reverse, rest)
      else if c = '<' then none
      else closeParam (c :: acc) rest
  | _, [] => none

/-- The `param` group: at least one character not `<`, lazily extended up
to the first `>`. Returns the param characters and the input after the
closing `>`. -/
def paramScan : List Char → Option (List Char × List Char)
  | c :: rest => if c = '<' then none else closeParam [c] rest
  | [] => none

/-- One alternative of the `type` group followed by the `param` group. -/
def tryPre (tag : MarkType) (cs : List Char) : Option (MarkType × List Char × List Char) :=
  if listStarts (tagStr tag) cs then
    (paramScan (cs.drop (tagStr tag).length)).map (fun pr => (tag, pr.1, pr.2))
  else none

/-- The regex body after the opening `<`: the alternatives of the `type`
group tried in the order of the pattern, each followed by the lazy
`param` group and the closing `>`. -/
def tryMatch (cs : List Char) : Option (MarkType × List Char × List Char) :=
  tryPre .userBang cs <|> tryPre .role cs <|> tryPre .user cs <|>
  tryPre .channel cs <|> tryPre .slash cs <|> tryPre (.emoji false) cs <|>
  tryPre (.emoji true) cs <|> tryPre .time cs

/-- The full matched span `embed.group()`: opening `<`, type characters,
param characters, closing `>`. -/
def wholeMatch (tag : MarkType) (param : List Char) : List Char :=
  '<' :: (tagStr tag ++ param ++ ['>'])

/-- Fallthrough of the timestamp branch of `_construct`: the `elif
embed.group().isdigit()` test on the whole match (which always starts
with `<`), then the literal-text fallback. -/
def timeFallback (param : List Char) : Option (List Segment) :=
  if strIsDigits (wholeMatch .time param) then
    some [Segment.timestamp (Int.ofNat (parseNatL (wholeMatch .time param))) none]
  else
    some [Segment.text (unescape (String.mk (wholeMatch .time param)))]

/-- Segments yielded by `_construct` for one match, by `type` group:
mention branches go through `Snowflake`, the slash branch yields nothing,
the emoji branch splits the param on colons with a literal-text fallback,
and the timestamp branch requires a numeric first part and a valid style.
`none` models an exception escaping the generator. -/
def emit (tag : MarkType) (param : List Char) : Option (List Segment) :=
  match tag with
  | .userBang =>
      (Snowflake.ofString (String.mk param)).map (fun sn => [Segment.mention_user sn])
  | .user =>
      (Snowflake.ofString (String.mk param)).map (fun sn => [Segment.mention_user sn])
  | .role =>
      (Snowflake.ofString (String.mk param)).map (fun sn => [Segment.mention_role sn])
  | .channel =>
      (Snowflake.ofString (String.mk param)).map (fun sn => [Segment.mention_channel sn])
  | .slash => some []
  | .emoji animated =>
      match splitColon param with
      | [a, b] => some [Segment.custom_emoji (String.mk a) (String.mk b) (some animated)]
      | _ => some [Segment.text (unescape (String.mk (wholeMatch (.emoji animated) param)))]
  | .time =>
      match splitColon param with
      | [a, b] =>
          if strIsDigits a then
            (TimeStampStyle.ofString (String.mk b)).map
              (fun st => [Segment.timestamp (Int.ofNat (parseNatL a)) (some st)])
          else timeFallback param
      | _ => timeFallback param

/-- Pending literal characters (held reversed) flushed as one unescaped
text segment, but only if non-empty — the `if content := msg[…]` guards. -/
def flushText (pending : List Char) (tail : List Segment) : List Segment :=
  if pending.isEmpty then tail
  else Segment.text (unescape (String.mk pending.reverse)) :: tail

/-- Scanner of `Message._construct`: a left-to-right pass accumulating
literal characters and, at each `<` where the pattern matches, emitting
the pending text followed by the match's segments, continuing after the
match. The fuel argument only bounds recursion; it never runs out when
started at the input length. -/
def scanAux : Nat → List Char → List Char → Option (List Segment)
  | _, pending, [] => some (flushText pending [])
  | 0, _, _ => none
  | fuel + 1, pending, c :: rest =>
      if c = '<' then
        match tryMatch rest with
        | some (tag, param, rest₂) =>
            match emit tag param with
            | none => none
            | some segs =>
                match scanAux fuel [] rest₂ with
                | none => none
                | some tail => some (flushText pending (segs ++ tail))
        | none => scanAux fuel (c :: pending) rest
      else scanAux fuel (c :: pending) rest

/-- Tokenizer `Message._construct`: scan the whole input. `none` models a
raised exception; the segment list is the sequence the generator yields. -/
def construct (msg : String) : Option (List Segment) :=
  scanAux msg.data.length [] msg.data

/-- Segment kinds contributing to `extract_content` (the tuple in the
source's generator condition). -/
def contentTypes : List String :=
  ["text", "custom_emoji", "mention_user", "mention_role", "mention_everyone",
   "mention_channel", "timestamp"]

/-- Operation `Message.extract_content`: concatenated render forms of the
segments whose kind is in `contentTypes`, in order. -/
def extract_content : Message → String
  | [] => ""
  | s :: rest =>
      (if contentTypes.contains s.type then segStr s else "") ++ extract_content rest

/-- Right-hand operand of `Message.__add__` / `__radd__`: a bare string, a
single segment, or a sequence of segments. -/
inductive AddOperand where
  | str (s : String)
  | seg (s : Segment)
  | segs (l : List Segment)

/-- Operator `Message.__add__` composed with the framework base
concatenation (modelled from the spec: the base class appends segments in
order): a bare string is first wrapped whole as a single text segment and
appended; it is not re-tokenized. -/
def Message.add (m : Message) : AddOperand → Message
  | .str s => m ++ [MessageSegment.text s]
  | .seg s => m ++ [s]
  | .segs l => m ++ l

/-- Operator `Message.__radd__` composed with the framework base
concatenation (modelled from the spec: the base class builds a one-element
message from the operand, then appends `self`): a bare string is first
wrapped whole as a single text segment. -/
def Message.radd (m : Message) : AddOperand → Message
  | .str s => MessageSegment.text s :: m
  | .seg s => s :: m
  | .segs l => l ++ m

/-- Description kept by the inbound adapter: the string when
`isinstance(description, str)`, else `None`. -/
def descOf : InboundDesc → Option String
  | .str s => some s
  | .notStr => none

/-- Attachment segments built by the inbound adapter's generator
expression: the attachment factory applied to metadata-only
`AttachmentSend` records, one per inbound attachment, a raised exception
(`none`) propagating out of the extend. -/
def attachSegs : List AttachmentGet → Option (List Segment)
  | [] => some []
  | a :: rest => do
      let s ← (MessageSegment.attachment
        (.attachmentSend ⟨a.filename, descOf a.description⟩) none none).toOption
      let l ← attachSegs rest
      some (s :: l)

/-- Inbound adapter `Message.from_guild_message`: mention-everyone flag,
tokenized content, metadata-only attachment segments, embed segments,
component segments — in that order. `none` models a raised exception. -/
def from_guild_message (message : MessageGet) : Option Message := do
  let msg₁ : Message := if message.mention_everyone then [Segment.mention_everyone] else []
  let msg₂ ←
    if message.content = "" then some msg₁
    else do
      let toks ← construct message.content
      some (msg₁ ++ toks)
  let attSegs ← attachSegs message.attachments
  let msg₃ := msg₂ ++ attSegs
  let msg₄ := msg₃ ++ message.embeds.map Segment.embed
  some (msg₄ ++ message.components.map MessageSegment.component)

/-- Output mapping of `parse_message`: one optional field per possible
key; `none` models the key being absent (the final dict comprehension
drops exactly the `None` values). -/
structure ParseResult where
  content : Option String
  embeds : Option (List Embed)
  message_reference : Option MessageReference
  components : Option (List Component)
  sticker_ids : Option (List Snowflake)
  files : Option (List File)
  attachments : Option (List AttachmentSend)
deriving DecidableEq

/-- Outbound serializer `parse_message`: kind-filtered payload lists with
`or None` emptiness coercions, the last reference segment's payload, and
the file payloads of the attachment segments that carry one. -/
def parse_message (message : Message) : ParseResult :=
  let content := extract_content message
  let embedSegs := message.filter (fun s => s.type == "embed")
  let refSegs := message.filter (fun s => s.type == "reference")
  let compSegs := message.filter (fun s => s.type == "component")
  let stickSegs := message.filter (fun s => s.type == "sticker")
  let attSegs := message.filter (fun s => s.type == "attachment")
  { content := if content = "" then none else some content
    embeds := if embedSegs.isEmpty then none else some (embedSegs.filterMap Segment.embedOf)
    message_reference :=
      if refSegs.isEmpty then none else refSegs.getLast?.bind Segment.refOf
    components :=
      if compSegs.isEmpty then none else some (compSegs.filterMap Segment.componentOf)
    sticker_ids :=
      if stickSegs.isEmpty then none else some (stickSegs.filterMap Segment.stickerOf)
    files := if attSegs.isEmpty then none else some (attSegs.filterMap Segment.fileOf)
    attachments :=
      if attSegs.isEmpty then none else some (attSegs.filterMap Segment.attachmentOf) }

/-! Basic facts about strings, digits, and the modelled collaborators. -/

theorem str_data_append (a b : String) : (a ++ b).data = a.data ++ b.data := rfl

theorem string_mk_data (s : String) : String.mk s.data = s := rfl

theorem unescapeAux_id : ∀ l : List Char, (∀ c ∈ l, c ≠ '\\') → unescapeAux l = l
  | [], _ => rfl
  | [_], _ => rfl
  | c :: c' :: rest, h => by
      have hc : c ≠ '\\' := h c (List.mem_cons_self _ _)
      have hrest : ∀ x ∈ c' :: rest, x ≠ '\\' := fun x hx =>
        h x (List.mem_cons_of_mem _ hx)
      rw [unescapeAux, if_neg (by simp [hc]), unescapeAux_id (c' :: rest) hrest]

theorem unescape_id (s : String) (h : ∀ c ∈ s.data, c ≠ '\\') : unescape s = s := by
  cases s with
  | mk l => exact congrArg String.mk (unescapeAux_id l h)

theorem charDigit_digitChar {d : Nat} (h : d < 10) : charDigit d.digitChar = d := by
  interval_cases d <;> decide

theorem isDigit_digitChar {d : Nat} (h : d < 10) : d.digitChar.isDigit = true := by
  interval_cases d <;> decide

theorem isDigit_ne {c : Char} (h : c.isDigit = true) :
    c ≠ '<' ∧ c ≠ '>' ∧ c ≠ ':' ∧ c ≠ '!' ∧ c ≠ '&' ∧ c ≠ '\\' := by
  refine ⟨?_, ?_, ?_, ?_, ?_, ?_⟩ <;> (rintro rfl; revert h; decide)

theorem natStr_data_ne_zero {n : Nat} (h : n ≠ 0) :
    (natStr n).data = (Nat.digits 10 n).reverse.map Nat.digitChar := by
  simp [natStr, h]

theorem natStr_digits (n : Nat) : strIsDigits (natStr n).data = true := by
  by_cases h : n = 0
  · subst h; decide
  · rw [natStr_data_ne_zero h, strIsDigits, Bool.and_eq_true]
    refine ⟨?_, ?_⟩
    · have hne : Nat.digits 10 n ≠ [] := Nat.digits_ne_nil_iff_ne_zero.mpr h
      simp [hne]
    · rw [List.all_eq_true]
      intro c hc
      rw [List.mem_map] at hc
      obtain ⟨d, hd, rfl⟩ := hc
      rw [List.mem_reverse] at hd
      exact isDigit_digitChar (Nat.digits_lt_base (by norm_num) hd)

theorem foldl_base10 (L : List Nat) (hL : ∀ d ∈ L, d < 10) (a : Nat) :
    (L.reverse.map Nat.digitChar).foldl (fun acc c => 10 * acc + charDigit c) a
      = a * 10 ^ L.length + Nat.ofDigits 10 L := by
  induction L generalizing a with
  | nil => simp [Nat.ofDigits]
  | cons d T ih =>
      have hd : d < 10 := hL d (List.mem_cons_self d T)
      have hT : ∀ x ∈ T, x < 10 := fun x hx => hL x (List.mem_cons_of_mem _ hx)
      simp only [List.reverse_cons, List.map_append, List.foldl_append, List.map_cons,
        List.map_nil, List.foldl_cons, List.foldl_nil]
      rw [ih hT a, charDigit_digitChar hd, Nat.ofDigits_cons, List.length_cons]
      ring

theorem parseNatL_natStr (n : Nat) : parseNatL (natStr n).data = n := by
  by_cases h : n = 0
  · subst h; decide
  · rw [natStr_data_ne_zero h, parseNatL,
      foldl_base10 (Nat.digits 10 n) (fun d hd => Nat.digits_lt_base (by norm_num) hd) 0]
    simp [Nat.ofDigits_digits]

theorem Snowflake.ofString_val (sn : Snowflake) : Snowflake.ofString sn.val = some sn := by
  cases sn with
  | mk v hv => simp [Snowflake.ofString, hv]

theorem Snowflake.data_spec (sn : Snowflake) :
    sn.val.data ≠ [] ∧ ∀ c ∈ sn.val.data, c.isDigit = true := by
  have h := sn.property
  rw [isSnowflakeStr, Bool.and_eq_true] at h
  refine ⟨?_, ?_⟩
  · have := h.1
    simpa using this
  · intro c hc
    exact List.all_eq_true.mp h.2 c hc

theorem TimeStampStyle.ofString_value (st : TimeStampStyle) :
    TimeStampStyle.ofString st.value = some st := by
  cases st <;> rfl

/-! Facts about the colon split. -/

theorem splitColon_no_colon : ∀ l : List Char, (∀ c ∈ l, c ≠ ':') → splitColon l = [l]
  | [], _ => rfl
  | c :: rest, h => by
      have hc : c ≠ ':' := h c (List.mem_cons_self _ _)
      simp only [splitColon, if_neg hc,
        splitColon_no_colon rest (fun x hx => h x (List.mem_cons_of_mem _ hx))]

theorem splitColon_append : ∀ xs ys : List Char, (∀ c ∈ xs, c ≠ ':') →
    splitColon (xs ++ ':' :: ys) = xs :: splitColon ys
  | [], ys, _ => by simp [splitColon]
  | x :: xs', ys, h => by
      have hx : x ≠ ':' := h x (List.mem_cons_self _ _)
      have ih := splitColon_append xs' ys (fun c hc => h c (List.mem_cons_of_mem _ hc))
      rw [List.cons_append, splitColon, if_neg hx, ih]

/-! Facts about the lazy param scan. -/

theorem closeParam_append : ∀ p acc tr : List Char, (∀ c ∈ p, c ≠ '<' ∧ c ≠ '>') →
    closeParam acc (p ++ '>' :: tr) = some (acc.reverse ++ p, tr)
  | [], acc, tr, _ => by simp [closeParam]
  | c :: p', acc, tr, h => by
      obtain ⟨h1, h2⟩ := h c (List.mem_cons_self _ _)
      rw [List.cons_append, closeParam, if_neg h2, if_neg h1,
        closeParam_append p' (c :: acc) tr (fun x hx => h x (List.mem_cons_of_mem _ hx))]
      simp

theorem paramScan_exact (p tr : List Char) (hne : p ≠ [])
    (h : ∀ c ∈ p, c ≠ '<' ∧ c ≠ '>') : paramScan (p ++ '>' :: tr) = some (p, tr) := by
  cases p with
  | nil => exact absurd rfl hne
  | cons c p' =>
      obtain ⟨h1, _⟩ := h c (List.mem_cons_self _ _)
      rw [List.cons_append, paramScan, if_neg h1,
        closeParam_append p' [c] tr (fun x hx => h x (List.mem_cons_of_mem _ hx))]
      simp

theorem closeParam_length : ∀ acc cs : List Char, ∀ p r : List Char,
    closeParam acc cs = some (p, r) → r.length < cs.length
  | _, [], _, _ => by simp [closeParam]
  | acc, c :: rest, p, r => by
      rw [closeParam]
      split_ifs with h1 h2
      · intro h
        obtain ⟨-, h⟩ := Prod.mk.injEq .. ▸ Option.some.inj h
        subst h
        simp
      · intro h
        exact absurd h (by simp)
      · intro h
        exact Nat.lt_trans (closeParam_length (c :: acc) rest p r h) (by simp)

theorem paramScan_length {cs p r : List Char} (h : paramScan cs = some (p, r)) :
    r.length < cs.length := by
  cases cs with
  | nil => exact absurd h (by simp [paramScan])
  | cons c rest =>
      rw [paramScan] at h
      split_ifs at h
      exact Nat.lt_trans (closeParam_length [c] rest p r h) (by simp)

theorem tryPre_length {tag : MarkType} {cs : List Char} {out : MarkType × List Char × List Char}
    (h : tryPre tag cs = some out) : out.2.2.length < cs.length := by
  rw [tryPre] at h
  split_ifs at h with hs
  · cases hp : paramScan (cs.drop (tagStr tag).length) with
    | none => rw [hp] at h; exact absurd h (by simp)
    | some pr =>
        rw [hp] at h
        obtain ⟨p, r⟩ := pr
        obtain rfl := Option.some.inj h
        have := paramScan_length hp
        have hdrop : (cs.drop (tagStr tag).length).length ≤ cs.length := by
          simp [List.length_drop]
        exact Nat.lt_of_lt_of_le this hdrop

theorem option_orElse_cases {α : Type} {a b : Option α} {v : α}
    (h : (a <|> b) = some v) : a = some v ∨ b = some v := by
  cases a with
  | none => right; simpa using h
  | some x => left; simpa using h

theorem tryMatch_length {cs : List Char} {t : MarkType} {p r : List Char}
    (h : tryMatch cs = some (t, p, r)) : r.length < cs.length := by
  rw [tryMatch] at h
  rcases option_orElse_cases h with h | h
  · exact tryPre_length h
  rcases option_orElse_cases h with h | h
  · exact tryPre_length h
  rcases option_orElse_cases h with h | h
  · exact tryPre_length h
  rcases option_orElse_cases h with h | h
  · exact tryPre_length h
  rcases option_orElse_cases h with h | h
  · exact tryPre_length h
  rcases option_orElse_cases h with h | h
  · exact tryPre_length h
  rcases option_orElse_cases h with h | h
  · exact tryPre_length h
  · exact tryPre_length h

/-! Fuel never matters once it covers the input length. -/

theorem scanAux_fuel : ∀ n f₁ f₂ : Nat, ∀ pending cs : List Char,
    cs.length ≤ n → cs.length ≤ f₁ → cs.length ≤ f₂ →
    scanAux f₁ pending cs = scanAux f₂ pending cs := by
  intro n
  induction n with
  | zero =>
      intro f₁ f₂ pending cs hn _ _
      obtain rfl : cs = [] := List.length_eq_zero.mp (Nat.le_zero.mp hn)
      cases f₁ <;> cases f₂ <;> rfl
  | succ n ih =>
      intro f₁ f₂ pending cs hn h₁ h₂
      cases cs with
      | nil => cases f₁ <;> cases f₂ <;> rfl
      | cons c rest =>
          simp only [List.length_cons] at hn h₁ h₂
          obtain ⟨g₁, rfl⟩ : ∃ g, f₁ = g + 1 := ⟨f₁ - 1, by omega⟩
          obtain ⟨g₂, rfl⟩ : ∃ g, f₂ = g + 1 := ⟨f₂ - 1, by omega⟩
          simp only [scanAux]
          by_cases hc : c = '<'
          · rw [if_pos hc, if_pos hc]
            cases htm : tryMatch rest with
            | none =>
                dsimp only
                exact ih g₁ g₂ _ rest (by omega) (by omega) (by omega)
            | some v =>
                obtain ⟨tag, param, rest₂⟩ := v
                have hlen := tryMatch_length htm
                dsimp only
                cases hem : emit tag param with
                | none => rfl
                | some segs =>
                    dsimp only
                    rw [ih g₁ g₂ [] rest₂ (by omega) (by omega) (by omega)]
          · rw [if_neg hc, if_neg hc]
            exact ih g₁ g₂ _ rest (by omega) (by omega) (by omega)

/-- Scanner at its canonical fuel (the length of the remaining input). -/
def scanRun (pending cs : List Char) : Option (List Segment) :=
  scanAux cs.length pending cs

theorem construct_eq_scanRun (msg : String) : construct msg = scanRun [] msg.data := rfl

theorem scanRun_nil (pending : List Char) : scanRun pending [] = some (flushText pending []) := rfl

theorem scanRun_cons_plain {c : Char} (h : c ≠ '<') (pending rest : List Char) :
    scanRun pending (c :: rest) = scanRun (c :: pending) rest := by
  simp only [scanRun, List.length_cons, scanAux, if_neg h]

theorem scanRun_lt_none {rest : List Char} (h : tryMatch rest = none) (pending : List Char) :
    scanRun pending ('<' :: rest) = scanRun ('<' :: pending) rest := by
  simp only [scanRun, List.length_cons, scanAux, if_pos, h]

theorem scanRun_lt_some {rest : List Char} {tag : MarkType} {param rest₂ : List Char}
    (h : tryMatch rest = some (tag, param, rest₂)) (pending : List Char) :
    scanRun pending ('<' :: rest) =
      match emit tag param with
      | none => none
      | some segs =>
          match scanRun [] rest₂ with
          | none => none
          | some tail => some (flushText pending (segs ++ tail)) := by
  have hlen := tryMatch_length h
  simp only [scanRun, List.length_cons, scanAux, if_pos, h]
  rw [scanAux_fuel rest.length rest.length rest₂.length [] rest₂ (by omega) (by omega) (by omega)]

theorem scanRun_text (t : List Char) (h : ∀ c ∈ t, c ≠ '<') :
    ∀ pending tr : List Char, scanRun pending (t ++ tr) = scanRun (t.reverse ++ pending) tr := by
  induction t with
  | nil => intro pending tr; simp
  | cons c t' ih =>
      intro pending tr
      have hc : c ≠ '<' := h c (List.mem_cons_self _ _)
      rw [List.cons_append, scanRun_cons_plain hc,
        ih (fun x hx => h x (List.mem_cons_of_mem _ hx)) (c :: pending) tr]
      simp

/-! Well-formedness for the render-parse round trip. -/

/-- Text whose render survives the round trip: non-empty, no markup
sentinel `<`, and no escape character. -/
def goodText (t : String) : Bool :=
  !t.data.isEmpty && t.data.all (fun c => !(c == '<') && !(c == '\\'))

/-- Characters allowed in a custom-emoji name or id so that the render
re-parses: no colon and no angle bracket. -/
def emojiCharOk (c : Char) : Bool :=
  !(c == ':') && !(c == '<') && !(c == '>')

/-- Markup segments whose render re-parses to themselves. -/
def goodMark : Segment → Bool
  | .mention_user _ => true
  | .mention_role _ => true
  | .mention_channel _ => true
  | .custom_emoji n i a =>
      a.isSome && n.data.all emojiCharOk && i.data.all emojiCharOk
  | .timestamp t st => st.isSome && decide (0 ≤ t)
  | _ => false

/-- Segments participating in the round trip. -/
def goodSeg (s : Segment) : Bool :=
  match s with
  | .text t => goodText t
  | s => goodMark s

/-- Whether a message starts with a text segment. -/
def headIsText : List Segment → Bool
  | Segment.text _ :: _ => true
  | _ => false

/-- Round-trip well-formedness of a message: every segment good and no two
adjacent text segments. -/
def wfRound : List Segment → Bool
  | [] => true
  | [s] => goodSeg s
  | s :: s' :: rest =>
      goodSeg s && !(s.isTextSeg && s'.isTextSeg) && wfRound (s' :: rest)

/-- Characters of the concatenated render forms of a message. -/
def strChars : List Segment → List Char
  | [] => []
  | s :: rest => (segStr s).data ++ strChars rest

theorem styleChar_ok (st : TimeStampStyle) :
    ∀ c ∈ st.value.data, c ≠ ':' ∧ c ≠ '<' ∧ c ≠ '>' := by
  cases st <;> decide

/-! The `type` alternation on each render form. -/

theorem tryPre_fail {tag : MarkType} {cs : List Char}
    (h : listStarts (tagStr tag) cs = false) : tryPre tag cs = none := by
  rw [tryPre, if_neg]
  simp [h]

theorem tryMatch_user (d0 : Char) (d' tr : List Char)
    (hd : ∀ c ∈ d0 :: d', c.isDigit = true) :
    tryMatch ('@' :: ((d0 :: d') ++ '>' :: tr)) = some (.user, d0 :: d', tr) := by
  have h0 := isDigit_ne (hd d0 (List.mem_cons_self _ _))
  have hall : ∀ c ∈ d0 :: d', c ≠ '<' ∧ c ≠ '>' := fun c hc =>
    ⟨(isDigit_ne (hd c hc)).1, (isDigit_ne (hd c hc)).2.1⟩
  have hps : paramScan ((d0 :: d') ++ '>' :: tr) = some (d0 :: d', tr) :=
    paramScan_exact _ _ (by simp) hall
  have s1 : listStarts (tagStr .userBang) ('@' :: ((d0 :: d') ++ '>' :: tr)) = false := by
    show (('@' == '@') && (('!' == d0) && true)) = false
    rw [beq_eq_false_iff_ne.mpr (Ne.symm h0.2.2.2.1)]
    decide
  have s2 : listStarts (tagStr .role) ('@' :: ((d0 :: d') ++ '>' :: tr)) = false := by
    show (('@' == '@') && (('&' == d0) && true)) = false
    rw [beq_eq_false_iff_ne.mpr (Ne.symm h0.2.2.2.2.1)]
    decide
  have s3 : tryPre .user ('@' :: ((d0 :: d') ++ '>' :: tr)) = some (.user, d0 :: d', tr) := by
    rw [show tryPre .user ('@' :: ((d0 :: d') ++ '>' :: tr)) =
        (paramScan ((d0 :: d') ++ '>' :: tr)).map (fun pr => (MarkType.user, pr.1, pr.2))
      from rfl, hps]
    rfl
  rw [tryMatch, tryPre_fail s1, tryPre_fail s2, s3]
  rfl

theorem tryMatch_role (d : List Char) (tr : List Char) (hne : d ≠ [])
    (hd : ∀ c ∈ d, c.isDigit = true) :
    tryMatch ('@' :: '&' :: (d ++ '>' :: tr)) = some (.role, d, tr) := by
  have hall : ∀ c ∈ d, c ≠ '<' ∧ c ≠ '>' := fun c hc =>
    ⟨(isDigit_ne (hd c hc)).1, (isDigit_ne (hd c hc)).2.1⟩
  have hps : paramScan (d ++ '>' :: tr) = some (d, tr) := paramScan_exact _ _ hne hall
  rw [show tryMatch ('@' :: '&' :: (d ++ '>' :: tr)) =
      ((paramScan (d ++ '>' :: tr)).map (fun pr => (MarkType.role, pr.1, pr.2)) <|>
        (tryPre .user ('@' :: '&' :: (d ++ '>' :: tr)) <|>
          (tryPre .channel ('@' :: '&' :: (d ++ '>' :: tr)) <|>
            (tryPre .slash ('@' :: '&' :: (d ++ '>' :: tr)) <|>
              (tryPre (.emoji false) ('@' :: '&' :: (d ++ '>' :: tr)) <|>
                (tryPre (.emoji true) ('@' :: '&' :: (d ++ '>' :: tr)) <|>
                  tryPre .time ('@' :: '&' :: (d ++ '>' :: tr))))))))
    from rfl, hps]
  rfl

theorem tryMatch_channel (d : List Char) (tr : List Char) (hne : d ≠ [])
    (hd : ∀ c ∈ d, c.isDigit = true) :
    tryMatch ('#' :: (d ++ '>' :: tr)) = some (.channel, d, tr) := by
  have hall : ∀ c ∈ d, c ≠ '<' ∧ c ≠ '>' := fun c hc =>
    ⟨(isDigit_ne (hd c hc)).1, (isDigit_ne (hd c hc)).2.1⟩
  have hps : paramScan (d ++ '>' :: tr) = some (d, tr) := paramScan_exact _ _ hne hall
  rw [show tryMatch ('#' :: (d ++ '>' :: tr)) =
      ((paramScan (d ++ '>' :: tr)).map (fun pr => (MarkType.channel, pr.1, pr.2)) <|>
        (tryPre .slash ('#' :: (d ++ '>' :: tr)) <|>
          (tryPre (.emoji false) ('#' :: (d ++ '>' :: tr)) <|>
            (tryPre (.emoji true) ('#' :: (d ++ '>' :: tr)) <|>
              tryPre .time ('#' :: (d ++ '>' :: tr))))))
    from rfl, hps]
  rfl

theorem tryMatch_emoji_false (p tr : List Char) (hne : p ≠ [])
    (hp : ∀ c ∈ p, c ≠ '<' ∧ c ≠ '>') :
    tryMatch (':' :: (p ++ '>' :: tr)) = some (.emoji false, p, tr) := by
  have hps : paramScan (p ++ '>' :: tr) = some (p, tr) := paramScan_exact _ _ hne hp
  rw [show tryMatch (':' :: (p ++ '>' :: tr)) =
      ((paramScan (p ++ '>' :: tr)).map (fun pr => (MarkType.emoji false, pr.1, pr.2)) <|>
        (tryPre (.emoji true) (':' :: (p ++ '>' :: tr)) <|>
          tryPre .time (':' :: (p ++ '>' :: tr))))
    from rfl, hps]
  rfl

theorem tryMatch_emoji_true (p tr : List Char) (hne : p ≠ [])
    (hp : ∀ c ∈ p, c ≠ '<' ∧ c ≠ '>') :
    tryMatch ('a' :: ':' :: (p ++ '>' :: tr)) = some (.emoji true, p, tr) := by
  have hps : paramScan (p ++ '>' :: tr) = some (p, tr) := paramScan_exact _ _ hne hp
  rw [show tryMatch ('a' :: ':' :: (p ++ '>' :: tr)) =
      ((paramScan (p ++ '>' :: tr)).map (fun pr => (MarkType.emoji true, pr.1, pr.2)) <|>
        tryPre .time ('a' :: ':' :: (p ++ '>' :: tr)))
    from rfl, hps]
  rfl

theorem tryMatch_time (p tr : List Char) (hne : p ≠ [])
    (hp : ∀ c ∈ p, c ≠ '<' ∧ c ≠ '>') :
    tryMatch ('t' :: ':' :: (p ++ '>' :: tr)) = some (.time, p, tr) := by
  have hps : paramScan (p ++ '>' :: tr) = some (p, tr) := paramScan_exact _ _ hne hp
  rw [show tryMatch ('t' :: ':' :: (p ++ '>' :: tr)) =
      (paramScan (p ++ '>' :: tr)).map (fun pr => (MarkType.time, pr.1, pr.2))
    from rfl, hps]
  rfl

/-! Segments emitted for each successful match. -/

theorem emit_user (sn : Snowflake) : emit .user sn.val.data = some [Segment.mention_user sn] := by
  show (Snowflake.ofString (String.mk sn.val.data)).map (fun x => [Segment.mention_user x]) = _
  rw [string_mk_data, Snowflake.ofString_val]
  rfl

theorem emit_role (sn : Snowflake) : emit .role sn.val.data = some [Segment.mention_role sn] := by
  show (Snowflake.ofString (String.mk sn.val.data)).map (fun x => [Segment.mention_role x]) = _
  rw [string_mk_data, Snowflake.ofString_val]
  rfl

theorem emit_channel (sn : Snowflake) :
    emit .channel sn.val.data = some [Segment.mention_channel sn] := by
  show (Snowflake.ofString (String.mk sn.val.data)).map (fun x => [Segment.mention_channel x]) = _
  rw [string_mk_data, Snowflake.ofString_val]
  rfl

theorem emit_emoji (n i : String) (b : Bool)
    (hn : ∀ c ∈ n.data, c ≠ ':') (hi : ∀ c ∈ i.data, c ≠ ':') :
    emit (.emoji b) (n.data ++ ':' :: i.data) = some [Segment.custom_emoji n i (some b)] := by
  have hsplit : splitColon (n.data ++ ':' :: i.data) = [n.data, i.data] := by
    rw [splitColon_append _ _ hn, splitColon_no_colon _ hi]
  simp only [emit]
  rw [hsplit]

theorem intStr_ofNat (tn : Nat) : intStr (Int.ofNat tn) = natStr tn := by
  have hnn : ¬Int.ofNat tn < 0 := not_lt.mpr (Int.ofNat_nonneg tn)
  simp [intStr, hnn]

theorem emit_time (tn : Nat) (st : TimeStampStyle) :
    emit .time ((natStr tn).data ++ ':' :: st.value.data) =
      some [Segment.timestamp (Int.ofNat tn) (some st)] := by
  have hdig := natStr_digits tn
  have hn : ∀ c ∈ (natStr tn).data, c ≠ ':' := by
    intro c hc
    rw [strIsDigits, Bool.and_eq_true, List.all_eq_true] at hdig
    exact (isDigit_ne (hdig.2 c hc)).2.2.1
  have hv : ∀ c ∈ st.value.data, c ≠ ':' := fun c hc => (styleChar_ok st c hc).1
  have hsplit : splitColon ((natStr tn).data ++ ':' :: st.value.data)
      = [(natStr tn).data, st.value.data] := by
    rw [splitColon_append _ _ hn, splitColon_no_colon _ hv]
  simp only [emit]
  rw [hsplit]
  dsimp only
  rw [if_pos (natStr_digits tn)]
  simp [string_mk_data, TimeStampStyle.ofString_value, parseNatL_natStr]

/-! One markup segment consumed from the front of the scan. -/

theorem scanRun_markup {s : Segment} (h : goodMark s = true) (pending tr : List Char) :
    scanRun pending ((segStr s).data ++ tr) =
      (scanRun [] tr).map (fun tail => flushText pending (s :: tail)) := by
  cases s with
  | mention_user sn =>
      obtain ⟨hne, hdig⟩ := Snowflake.data_spec sn
      obtain ⟨d0, d', hd⟩ : ∃ d0 d', sn.val.data = d0 :: d' := by
        cases hh : sn.val.data with
        | nil => exact absurd hh hne
        | cons a b => exact ⟨a, b, rfl⟩
      have hshape : (segStr (Segment.mention_user sn)).data ++ tr
          = '<' :: ('@' :: (sn.val.data ++ '>' :: tr)) := by
        show (('<' :: '@' :: sn.val.data) ++ ['>']) ++ tr = _
        simp
      rw [hshape, hd, scanRun_lt_some (tryMatch_user d0 d' tr (hd ▸ hdig)) pending, ← hd,
        emit_user sn]
      cases scanRun [] tr <;> simp
  | mention_role sn =>
      obtain ⟨hne, hdig⟩ := Snowflake.data_spec sn
      have hshape : (segStr (Segment.mention_role sn)).data ++ tr
          = '<' :: ('@' :: '&' :: (sn.val.data ++ '>' :: tr)) := by
        show (('<' :: '@' :: '&' :: sn.val.data) ++ ['>']) ++ tr = _
        simp
      rw [hshape, scanRun_lt_some (tryMatch_role sn.val.data tr hne hdig) pending,
        emit_role sn]
      cases scanRun [] tr <;> simp
  | mention_channel sn =>
      obtain ⟨hne, hdig⟩ := Snowflake.data_spec sn
      have hshape : (segStr (Segment.mention_channel sn)).data ++ tr
          = '<' :: ('#' :: (sn.val.data ++ '>' :: tr)) := by
        show (('<' :: '#' :: sn.val.data) ++ ['>']) ++ tr = _
        simp
      rw [hshape, scanRun_lt_some (tryMatch_channel sn.val.data tr hne hdig) pending,
        emit_channel sn]
      cases scanRun [] tr <;> simp
  | custom_emoji n i a =>
      simp only [goodMark, Bool.and_eq_true] at h
      obtain ⟨⟨ha, hnall⟩, hiall⟩ := h
      obtain ⟨b, rfl⟩ := Option.isSome_iff_exists.mp ha
      rw [List.all_eq_true] at hnall hiall
      have hnco : ∀ c ∈ n.data, c ≠ ':' := fun c hc => by
        have := hnall c hc
        simp [emojiCharOk] at this
        exact this.1.1
      have hico : ∀ c ∈ i.data, c ≠ ':' := fun c hc => by
        have := hiall c hc
        simp [emojiCharOk] at this
        exact this.1.1
      have hpar : ∀ c ∈ n.data ++ ':' :: i.data, c ≠ '<' ∧ c ≠ '>' := by
        intro c hc
        rw [List.mem_append] at hc
        rcases hc with hc | hc
        · have := hnall c hc
          simp [emojiCharOk] at this
          exact ⟨this.1.2, this.2⟩
        · rw [List.mem_cons] at hc
          rcases hc with rfl | hc
          · exact ⟨by decide, by decide⟩
          · have := hiall c hc
            simp [emojiCharOk] at this
            exact ⟨this.1.2, this.2⟩
      have hpne : n.data ++ ':' :: i.data ≠ [] := by simp
      cases b with
      | false =>
          have hshape : (segStr (Segment.custom_emoji n i (some false))).data ++ tr
              = '<' :: (':' :: ((n.data ++ ':' :: i.data) ++ '>' :: tr)) := by
            show ((((('<' :: ':' :: n.data) ++ [':']) ++ i.data) ++ ['>']) ++ tr) = _
            simp
          rw [hshape, scanRun_lt_some (tryMatch_emoji_false _ tr hpne hpar) pending,
            emit_emoji n i false hnco hico]
          cases scanRun [] tr <;> simp
      | true =>
          have hshape : (segStr (Segment.custom_emoji n i (some true))).data ++ tr
              = '<' :: ('a' :: ':' :: ((n.data ++ ':' :: i.data) ++ '>' :: tr)) := by
            show ((((('<' :: 'a' :: ':' :: n.data) ++ [':']) ++ i.data) ++ ['>']) ++ tr) = _
            simp
          rw [hshape, scanRun_lt_some (tryMatch_emoji_true _ tr hpne hpar) pending,
            emit_emoji n i true hnco hico]
          cases scanRun [] tr <;> simp
  | timestamp t st =>
      simp only [goodMark, Bool.and_eq_true] at h
      obtain ⟨hst, hnn⟩ := h
      obtain ⟨st', rfl⟩ := Option.isSome_iff_exists.mp hst
      have ht : (0 : Int) ≤ t := of_decide_eq_true hnn
      obtain ⟨tn, rfl⟩ : ∃ n : Nat, t = Int.ofNat n := ⟨t.toNat, (Int.toNat_of_nonneg ht).symm⟩
      have hdig := natStr_digits tn
      rw [strIsDigits, Bool.and_eq_true, List.all_eq_true] at hdig
      have hpar : ∀ c ∈ (natStr tn).data ++ ':' :: st'.value.data, c ≠ '<' ∧ c ≠ '>' := by
        intro c hc
        rw [List.mem_append] at hc
        rcases hc with hc | hc
        · exact ⟨(isDigit_ne (hdig.2 c hc)).1, (isDigit_ne (hdig.2 c hc)).2.1⟩
        · rw [List.mem_cons] at hc
          rcases hc with rfl | hc
          · exact ⟨by decide, by decide⟩
          · exact (styleChar_ok st' c hc).2
      have hpne : (natStr tn).data ++ ':' :: st'.value.data ≠ [] := by simp
      have hseg : segStr (Segment.timestamp (Int.ofNat tn) (some st'))
          = "<t:" ++ natStr tn ++ (":" ++ st'.value) ++ ">" := by
        show "<t:" ++ intStr (Int.ofNat tn) ++ (":" ++ st'.value) ++ ">" = _
        rw [intStr_ofNat]
      rw [hseg]
      have hshape : ("<t:" ++ natStr tn ++ (":" ++ st'.value) ++ ">").data ++ tr
          = '<' :: ('t' :: ':' :: (((natStr tn).data ++ ':' :: st'.value.data) ++ '>' :: tr)) := by
        show ((((['<', 't', ':'] ++ (natStr tn).data) ++ (':' :: st'.value.data)) ++ ['>']) ++ tr) = _
        simp
      rw [hshape, scanRun_lt_some (tryMatch_time _ tr hpne hpar) pending, emit_time tn st']
      cases scanRun [] tr <;> simp
  | text t => exact absurd h (by simp [goodMark])
  | mention_everyone => exact absurd h (by simp [goodMark])
  | sticker id => exact absurd h (by simp [goodMark])
  | embed e => exact absurd h (by simp [goodMark])
  | component c => exact absurd h (by simp [goodMark])
  | attachment a f => exact absurd h (by simp [goodMark])
  | reference r => exact absurd h (by simp [goodMark])

/-! Round trip of well-formed messages. -/

theorem headIsText_cons (s : Segment) (r : List Segment) :
    headIsText (s :: r) = s.isTextSeg := by
  cases s <;> rfl

theorem isTextSeg_iff (s : Segment) : s.isTextSeg = true ↔ ∃ t, s = Segment.text t := by
  cases s <;> simp [Segment.isTextSeg]

theorem wfRound_cons {s : Segment} {rest : List Segment} (h : wfRound (s :: rest) = true) :
    goodSeg s = true ∧ wfRound rest = true ∧
      (s.isTextSeg = true → headIsText rest = false) := by
  cases rest with
  | nil => exact ⟨h, rfl, fun _ => rfl⟩
  | cons s' r =>
      rw [wfRound, Bool.and_eq_true, Bool.and_eq_true] at h
      obtain ⟨⟨h1, h2⟩, h3⟩ := h
      refine ⟨h1, h3, fun ht => ?_⟩
      rw [headIsText_cons]
      cases hs' : s'.isTextSeg with
      | false => rfl
      | true => rw [ht, hs'] at h2; exact absurd h2 (by decide)

theorem wfRound_all : ∀ m : List Segment, wfRound m = true → ∀ s ∈ m, goodSeg s = true := by
  intro m
  induction m with
  | nil => intro _ s hs; exact absurd hs (by simp)
  | cons x rest ih =>
      intro h s hs
      obtain ⟨h1, h2, -⟩ := wfRound_cons h
      rw [List.mem_cons] at hs
      rcases hs with rfl | hs
      · exact h1
      · exact ih h2 s hs

theorem goodSeg_content {s : Segment} (h : goodSeg s = true) :
    contentTypes.contains s.type = true := by
  cases s <;> first
    | rfl
    | exact absurd h (by simp [goodSeg, goodMark])

theorem goodSeg_eq_mark {s : Segment} (hs : s.isTextSeg = false) :
    goodSeg s = goodMark s := by
  cases s <;> simp_all [Segment.isTextSeg, goodSeg]

theorem extract_data : ∀ m : List Segment, (∀ s ∈ m, goodSeg s = true) →
    (extract_content m).data = strChars m := by
  intro m
  induction m with
  | nil => intro _; rfl
  | cons s rest ih =>
      intro h
      rw [extract_content, if_pos (goodSeg_content (h s (List.mem_cons_self _ _))),
        str_data_append, strChars, ih (fun x hx => h x (List.mem_cons_of_mem _ hx))]

theorem scanRun_wf : ∀ m : List Segment, ∀ pending : List Char,
    wfRound m = true → (∀ c ∈ pending, c ≠ '\\') →
    (pending ≠ [] → headIsText m = false) →
    scanRun pending (strChars m) = some (flushText pending m) := by
  intro m
  induction m with
  | nil => intro pending _ _ _; exact scanRun_nil pending
  | cons s rest ih =>
      intro pending hwf hpend hhead
      obtain ⟨hgood, hwfrest, hadj⟩ := wfRound_cons hwf
      cases hs : s.isTextSeg with
      | true =>
          obtain ⟨t, rfl⟩ := (isTextSeg_iff s).mp hs
          have hpe : pending = [] := by
            by_contra hne
            exact absurd (hhead hne) (by simp [headIsText])
          subst hpe
          have hgt : goodText t = true := hgood
          rw [goodText, Bool.and_eq_true, List.all_eq_true] at hgt
          obtain ⟨htne, hchars⟩ := hgt
          have hlt : ∀ c ∈ t.data, c ≠ '<' := fun c hc => by
            have := hchars c hc; simp at this; exact this.1
          have hbs : ∀ c ∈ t.data, c ≠ '\\' := fun c hc => by
            have := hchars c hc; simp at this; exact this.2
          have htne' : t.data ≠ [] := by simpa using htne
          rw [strChars]
          rw [show (segStr (Segment.text t)).data = t.data from rfl]
          rw [scanRun_text t.data hlt [] (strChars rest), List.append_nil]
          rw [ih t.data.reverse hwfrest
            (fun c hc => hbs c (List.mem_reverse.mp hc))
            (fun _ => hadj rfl)]
          have hflush : flushText t.data.reverse rest = Segment.text t :: rest := by
            rw [flushText, if_neg (by simpa using htne')]
            rw [List.reverse_reverse, string_mk_data, unescape_id t hbs]
          rw [hflush]
          rfl
      | false =>
          have hgm : goodMark s = true := by rw [← goodSeg_eq_mark hs]; exact hgood
          rw [strChars, scanRun_markup hgm pending (strChars rest),
            ih [] hwfrest (by simp) (fun hne => absurd rfl hne)]
          rfl

theorem construct_roundtrip_wf (m : Message) (h : wfRound m = true) :
    construct (extract_content m) = some m := by
  rw [construct_eq_scanRun, extract_data m (wfRound_all m h),
    scanRun_wf m [] h (by simp) (fun hne => absurd rfl hne)]
  rfl

/-! Fallback branches of the emoji and timestamp match arms. -/

theorem strIsDigits_lt (l : List Char) : strIsDigits ('<' :: l) = false := by
  simp [strIsDigits, List.all_cons, show ('<'.isDigit) = false from by decide]

theorem timeFallback_eq (p : List Char) :
    timeFallback p = some [Segment.text (unescape (String.mk (wholeMatch .time p)))] := by
  have hlt : strIsDigits (wholeMatch .time p) = false := strIsDigits_lt _
  rw [timeFallback, if_neg (by simp [hlt])]

theorem emit_time_fallback (p : List Char)
    (h : (splitColon p).length ≠ 2 ∨ strIsDigits ((splitColon p).headD []) = false) :
    emit .time p = some [Segment.text (unescape (String.mk (wholeMatch .time p)))] := by
  simp only [emit]
  cases hsp : splitColon p with
  | nil => exact timeFallback_eq p
  | cons a tail =>
      cases tail with
      | nil => exact timeFallback_eq p
      | cons b tail2 =>
          cases tail2 with
          | nil =>
              rcases h with h | h
              · rw [hsp] at h
                exact absurd rfl h
              · rw [hsp] at h
                dsimp at h
                dsimp only
                rw [if_neg (by simp [h])]
                exact timeFallback_eq p
          | cons c tail3 => exact timeFallback_eq p

theorem emit_emoji_fallback (b : Bool) (p : List Char)
    (h : (splitColon p).length ≠ 2) :
    emit (.emoji b) p = some [Segment.text (unescape (String.mk (wholeMatch (.emoji b) p)))] := by
  simp only [emit]
  cases hsp : splitColon p with
  | nil => rfl
  | cons a tail =>
      cases tail with
      | nil => rfl
      | cons c tail2 =>
          cases tail2 with
          | nil => rw [hsp] at h; exact absurd rfl h
          | cons d tail3 => rfl

/-! Bridges between the serializer's kind filters and payload extraction. -/

theorem refOf_none_filters (a : Segment) (h : Segment.refOf a = none) :
    List.filter (fun s => s.type == "reference") [a] = [] ∧
      List.filterMap Segment.refOf [a] = [] := by
  cases a <;> first
    | exact ⟨rfl, rfl⟩
    | exact absurd h (by simp [Segment.refOf])

theorem refOf_some_eq {a : Segment} {r : MessageReference} (h : Segment.refOf a = some r) :
    a = Segment.reference r := by
  cases a <;> simp_all [Segment.refOf]

theorem filter_ref_getLast (m : Message) :
    (if (m.filter (fun s => s.type == "reference")).isEmpty then none
     else (m.filter (fun s => s.type == "reference")).getLast?.bind Segment.refOf)
      = (m.filterMap Segment.refOf).getLast? := by
  induction m using List.reverseRecOn with
  | nil => rfl
  | append_singleton l a ih =>
      rw [List.filter_append, List.filterMap_append]
      cases hav : Segment.refOf a with
      | none =>
          obtain ⟨e1, e2⟩ := refOf_none_filters a hav
          rw [e1, e2, List.append_nil, List.append_nil]
          exact ih
      | some r =>
          obtain rfl := refOf_some_eq hav
          rw [show List.filter (fun s => s.type == "reference") [Segment.reference r]
              = [Segment.reference r] from rfl,
            show List.filterMap Segment.refOf [Segment.reference r] = [r] from rfl,
            List.getLast?_concat, List.getLast?_concat, if_neg (by simp)]
          rfl

theorem attPair_none_filters (a : Segment) (rest : List Segment)
    (h : Segment.attPair a = none) :
    List.filter (fun s => s.type == "attachment") (a :: rest)
        = List.filter (fun s => s.type == "attachment") rest ∧
      List.filterMap Segment.attPair (a :: rest) = List.filterMap Segment.attPair rest := by
  cases a <;> first
    | exact ⟨rfl, rfl⟩
    | exact absurd h (by simp [Segment.attPair])

theorem attPair_some_eq {a : Segment} {x : AttachmentSend} {f : Option File}
    (h : Segment.attPair a = some (x, f)) : a = Segment.attachment x f := by
  cases a <;> simp_all [Segment.attPair]

theorem filter_att_fst (m : Message) :
    (m.filter (fun s => s.type == "attachment")).filterMap Segment.attachmentOf
      = (m.filterMap Segment.attPair).map Prod.fst := by
  induction m with
  | nil => rfl
  | cons s rest ih =>
      cases hav : Segment.attPair s with
      | none =>
          obtain ⟨e1, e2⟩ := attPair_none_filters s rest hav
          rw [e1, e2]
          exact ih
      | some pr =>
          obtain ⟨x, f⟩ := pr
          obtain rfl := attPair_some_eq hav
          show x :: (rest.filter (fun s => s.type == "attachment")).filterMap
              Segment.attachmentOf
            = x :: (rest.filterMap Segment.attPair).map Prod.fst
          rw [ih]

theorem filter_att_snd (m : Message) :
    (m.filter (fun s => s.type == "attachment")).filterMap Segment.fileOf
      = (m.filterMap Segment.attPair).filterMap Prod.snd := by
  induction m with
  | nil => rfl
  | cons s rest ih =>
      cases hav : Segment.attPair s with
      | none =>
          obtain ⟨e1, e2⟩ := attPair_none_filters s rest hav
          rw [e1, e2]
          exact ih
      | some pr =>
          obtain ⟨x, f⟩ := pr
          obtain rfl := attPair_some_eq hav
          cases f with
          | none => exact ih
          | some b =>
              show b :: (rest.filter (fun s => s.type == "attachment")).filterMap
                  Segment.fileOf
                = b :: (rest.filterMap Segment.attPair).filterMap Prod.snd
              rw [ih]

theorem filter_att_isEmpty (m : Message) :
    (m.filter (fun s => s.type == "attachment")).isEmpty
      = (m.filterMap Segment.attPair).isEmpty := by
  induction m with
  | nil => rfl
  | cons s rest ih =>
      cases hav : Segment.attPair s with
      | none =>
          obtain ⟨e1, e2⟩ := attPair_none_filters s rest hav
          rw [e1, e2]
          exact ih
      | some pr =>
          obtain ⟨x, f⟩ := pr
          obtain rfl := attPair_some_eq hav
          rfl

theorem parse_message_reference (m : Message) :
    (parse_message m).message_reference = (m.filterMap Segment.refOf).getLast? := by
  rw [show (parse_message m).message_reference =
      (if (m.filter (fun s => s.type == "reference")).isEmpty then none
       else (m.filter (fun s => s.type == "reference")).getLast?.bind Segment.refOf) from rfl]
  exact filter_ref_getLast m

theorem str_append_assoc (a b c : String) : (a ++ b) ++ c = a ++ (b ++ c) :=
  congrArg String.mk (List.append_assoc a.data b.data c.data)

theorem extract_append (a b : Message) :
    extract_content (a ++ b) = extract_content a ++ extract_content b := by
  induction a with
  | nil => rfl
  | cons s rest ih =>
      rw [List.cons_append, extract_content, extract_content, ih, str_append_assoc]

theorem attachSegs_eq (l : List AttachmentGet) :
    attachSegs l
      = some (l.map (fun a => Segment.attachment ⟨a.filename, descOf a.description⟩ none)) := by
  induction l with
  | nil => rfl
  | cons a l ih =>
      rw [attachSegs, ih]
      rfl

/-- Concrete well-formed message exercising every round-trip segment kind. -/
def roundtripExample : Message :=
  [Segment.text "hi ", Segment.mention_user ⟨"42", by decide⟩,
   Segment.custom_emoji "wave" "77" (some true),
   Segment.timestamp 99 (some .relativeTime),
   Segment.mention_channel ⟨"5", by decide⟩,
   Segment.mention_role ⟨"7", by decide⟩]

/-- C1: the tokenizer maps `<t:SECONDS:STYLE>` to a styled timestamp segment
and falls back to literal text on a non-numeric first part, but on
`<t:SECONDS>` (no style) it tests `embed.group().isdigit()` on the whole
match — which always starts with `<` — so instead of the timestamp segment
the claim and spec describe, it emits the span as literal text. -/
theorem c1_timestamp_tokenization :
    construct "<t:1234>" = some [Segment.text "<t:1234>"] ∧
    construct "<t:1234>" ≠ some [Segment.timestamp 1234 none] ∧
    construct "<t:1234:R>" = some [Segment.timestamp 1234 (some .relativeTime)] ∧
    construct "<t:abc>" = some [Segment.text "<t:abc>"] := by
  decide

/-- C2 counterexample: tokenization does raise on some malformed inline
markup — a mention span whose ID is not numeric makes `Snowflake` fail, so
`_construct` propagates an exception (modelled as `none`) instead of
emitting a literal text segment. -/
theorem c2_counterexample_mention_raises : construct "<@abc>" = none := by
  decide

/-- C2 (amended): malformed emoji markup (param not exactly two colon
parts) and malformed timestamp markup (non-numeric first part) fall back
to a single literal text segment — in particular on `"<:bad>"` and
`"<t:abc>"` — but mention spans with non-numeric IDs and timestamp spans
with a numeric first part and an unrecognized style raise. -/
theorem c2_malformed_fallback :
    (∀ p : List Char, p ≠ [] → (∀ c ∈ p, c ≠ '<' ∧ c ≠ '>') →
      (splitColon p).length ≠ 2 →
      construct (String.mk ('<' :: ':' :: (p ++ ['>'])))
        = some [Segment.text (unescape (String.mk ('<' :: ':' :: (p ++ ['>']))))]) ∧
    (∀ p : List Char, p ≠ [] → (∀ c ∈ p, c ≠ '<' ∧ c ≠ '>') →
      ((splitColon p).length ≠ 2 ∨ strIsDigits ((splitColon p).headD []) = false) →
      construct (String.mk ('<' :: 't' :: ':' :: (p ++ ['>'])))
        = some [Segment.text (unescape (String.mk ('<' :: 't' :: ':' :: (p ++ ['>']))))]) ∧
    construct "<:bad>" = some [Segment.text "<:bad>"] ∧
    construct "<t:abc>" = some [Segment.text "<t:abc>"] ∧
    construct "<@abc>" = none ∧
    construct "<t:5:q>" = none := by
  refine ⟨?_, ?_, by decide, by decide, by decide, by decide⟩
  · intro p hne hp hlen
    rw [show construct (String.mk ('<' :: ':' :: (p ++ ['>'])))
        = scanRun [] ('<' :: (':' :: (p ++ '>' :: []))) from rfl,
      scanRun_lt_some (tryMatch_emoji_false p [] hne hp) [],
      emit_emoji_fallback false p hlen]
    rfl
  · intro p hne hp hcond
    rw [show construct (String.mk ('<' :: 't' :: ':' :: (p ++ ['>'])))
        = scanRun [] ('<' :: ('t' :: ':' :: (p ++ '>' :: []))) from rfl,
      scanRun_lt_some (tryMatch_time p [] hne hp) [],
      emit_time_fallback p hcond]
    rfl

/-- C2 witness: the general emoji fallback applied at the one-part param
`"x"`. -/
theorem c2_malformed_fallback_witness :
    construct (String.mk ('<' :: ':' :: (['x'] ++ ['>'])))
      = some [Segment.text (unescape (String.mk ('<' :: ':' :: (['x'] ++ ['>']))))] :=
  c2_malformed_fallback.1 ['x'] (by decide) (by decide) (by decide)

/-- C3 counterexample: a message consisting of one `mention_everyone`
segment renders to `"@everyone"`, which the tokenizer has no rule for, so
re-parsing yields a plain text segment and not the original message. -/
theorem c3_counterexample_everyone :
    construct (extract_content [Segment.mention_everyone])
        = some [Segment.text "@everyone"] ∧
      construct (extract_content [Segment.mention_everyone])
        ≠ some [Segment.mention_everyone] := by
  decide

/-- C3 (amended): tokenizing `extract_content` reproduces the message for
every message built from non-empty text segments free of `<` and `\`
with no two adjacent, user/role/channel mentions, custom emoji with an
explicit animated flag and colon-free, bracket-free name and id, and
timestamps with a nonnegative time and an explicit style — excluding
`mention_everyone` (its render re-parses as text) and style-less
timestamps (their render re-parses as text, see C1). -/
theorem c3_roundtrip_amended (m : Message) (h : wfRound m = true) :
    construct (extract_content m) = some m :=
  construct_roundtrip_wf m h

/-- C3 witness: the round trip at a concrete six-segment message. -/
theorem c3_roundtrip_witness :
    wfRound roundtripExample = true ∧
      construct (extract_content roundtripExample) = some roundtripExample :=
  ⟨by decide, c3_roundtrip_amended roundtripExample (by decide)⟩

/-- C4: `parse_message` sets `message_reference` to the payload of the last
reference segment (absent — `none` — exactly when there is none), and with
two reference segments appended the second wins. -/
theorem c4_reference_last_wins (m : Message) :
    ((parse_message m).message_reference = (m.filterMap Segment.refOf).getLast?) ∧
    ∀ r₁ r₂ : MessageReference,
      (parse_message (m ++ [Segment.reference r₁, Segment.reference r₂])).message_reference
        = some r₂ := by
  refine ⟨parse_message_reference m, fun r₁ r₂ => ?_⟩
  rw [parse_message_reference, List.filterMap_append,
    show List.filterMap Segment.refOf [Segment.reference r₁, Segment.reference r₂]
      = [r₁, r₂] from rfl,
    show m.filterMap Segment.refOf ++ [r₁, r₂]
      = (m.filterMap Segment.refOf ++ [r₁]) ++ [r₂] from by simp,
    List.getLast?_concat]

/-- C5 counterexample: with one attachment segment carrying no file bytes,
the serialized `files` key is present as an empty list (only `None` values
are dropped from the output dict), not absent as the claim states. -/
theorem c5_counterexample_files_empty :
    (parse_message [Segment.attachment ⟨"a.txt", none⟩ none]).files = some [] ∧
      (parse_message [Segment.attachment ⟨"a.txt", none⟩ none]).files ≠ none := by
  decide

/-- C5 (amended): `attachments` is the ordered metadata of every attachment
segment and `files` the ordered file payloads of exactly those attachment
segments carrying one; both keys are absent exactly when there is no
attachment segment at all — when attachment segments exist but none
carries bytes, `files` is present as an empty list. The second part checks
the spec's three-attachment ordering scenario. -/
theorem c5_attachments_files (m : Message) :
    ((parse_message m).attachments =
      if (m.filterMap Segment.attPair).isEmpty then none
      else some ((m.filterMap Segment.attPair).map Prod.fst)) ∧
    ((parse_message m).files =
      if (m.filterMap Segment.attPair).isEmpty then none
      else some ((m.filterMap Segment.attPair).filterMap Prod.snd)) ∧
    ∀ (x y z : AttachmentSend) (f g : File),
      (parse_message [Segment.attachment x (some f), Segment.attachment y none,
          Segment.attachment z (some g)]).attachments = some [x, y, z] ∧
      (parse_message [Segment.attachment x (some f), Segment.attachment y none,
          Segment.attachment z (some g)]).files = some [f, g] := by
  refine ⟨?_, ?_, fun x y z f g => ⟨rfl, rfl⟩⟩
  · rw [show (parse_message m).attachments =
        (if (m.filter (fun s => s.type == "attachment")).isEmpty then none
         else some ((m.filter (fun s => s.type == "attachment")).filterMap
           Segment.attachmentOf)) from rfl,
      filter_att_isEmpty, filter_att_fst]
  · rw [show (parse_message m).files =
        (if (m.filter (fun s => s.type == "attachment")).isEmpty then none
         else some ((m.filter (fun s => s.type == "attachment")).filterMap
           Segment.fileOf)) from rfl,
      filter_att_isEmpty, filter_att_snd]

/-- C6: `extract_content` is the in-order concatenation of the render forms
of exactly the segments of textual kinds (text, custom emoji, mentions,
everyone, channel, timestamp) — a segment contributes its render form when
its kind is in the set and nothing otherwise — and on the spec's example
it returns `"@everyone" ++ "hi " ++ "<@42>"`. -/
theorem c6_extract_content_order (pre post : Message) (s : Segment) :
    (extract_content (pre ++ s :: post) =
      extract_content pre ++ (if contentTypes.contains s.type then segStr s else "")
        ++ extract_content post) ∧
    extract_content [Segment.mention_everyone, Segment.text "hi ",
        Segment.mention_user ⟨"42", by decide⟩]
      = "@everyone" ++ "hi " ++ "<@42>" := by
  refine ⟨?_, by decide⟩
  rw [extract_append,
    show extract_content (s :: post)
      = (if contentTypes.contains s.type then segStr s else "") ++ extract_content post
      from rfl, ← str_append_assoc]

/-- C7: message-plus-string concatenation wraps the string whole as a
single text segment on either side — `Message() + "hello"` and
`"hello" + Message([text "!"])` come out as explicit segment construction —
and the wrapped string is not re-run through the mention grammar: adding
`"<@42>"` appends a text segment even though tokenizing that string
produces a mention segment. -/
theorem c7_add_string_wraps (m : Message) (s : String) :
    (Message.add m (.str s) = m ++ [Segment.text s]) ∧
    (Message.radd m (.str s) = Segment.text s :: m) ∧
    Message.add [] (.str "hello") = [Segment.text "hello"] ∧
    Message.radd [Segment.text "!"] (.str "hello")
      = [Segment.text "hello", Segment.text "!"] ∧
    Message.add [] (.str "<@42>") = [Segment.text "<@42>"] ∧
    construct "<@42>" = some [Segment.mention_user ⟨"42", by decide⟩] ∧
    (Segment.text "<@42>" : Segment) ≠ Segment.mention_user ⟨"42", by decide⟩ :=
  ⟨rfl, rfl, rfl, rfl, rfl, by decide, by decide⟩

/-- C8: the inbound adapter builds, in order: a `mention_everyone` segment
iff the event flag is set, then the tokenized content iff non-empty, then
one metadata-only attachment segment per attachment (no file bytes,
non-string description dropped to `none`), then one embed segment per
embed, then one component segment per component. -/
theorem c8_from_guild_message_order (ev : MessageGet) (toks : Message)
    (h : construct ev.content = some toks) :
    from_guild_message ev = some (
      (if ev.mention_everyone then [Segment.mention_everyone] else []) ++
      (if ev.content = "" then [] else toks) ++
      ev.attachments.map (fun a =>
        Segment.attachment ⟨a.filename, descOf a.description⟩ none) ++
      ev.embeds.map Segment.embed ++
      ev.components.map MessageSegment.component) := by
  rw [from_guild_message]
  by_cases hc : ev.content = ""
  · have htoks : toks = [] := by
      rw [hc] at h
      exact (Option.some.inj h).symm
    subst htoks
    rw [if_pos hc]
    simp only [Option.some_bind]
    rw [attachSegs_eq]
    simp [hc]
  · rw [if_neg hc, h]
    simp only [Option.some_bind]
    rw [attachSegs_eq]
    simp [hc, List.append_assoc]

/-- Concrete inbound event exercising every branch of the adapter. -/
def c8Event : MessageGet :=
  { mention_everyone := true
    content := "hi <@42>"
    attachments := [⟨"f.png", .str "pic"⟩, ⟨"g.png", .notStr⟩]
    embeds := [⟨"rich"⟩]
    components := [Component.button "b"] }

/-- C8 witness: the adapter's fixed ordering at a concrete event. -/
theorem c8_from_guild_message_witness :
    construct c8Event.content
        = some [Segment.text "hi ", Segment.mention_user ⟨"42", by decide⟩] ∧
      from_guild_message c8Event = some (
        (if c8Event.mention_everyone then [Segment.mention_everyone] else []) ++
        (if c8Event.content = "" then [] else
          [Segment.text "hi ", Segment.mention_user ⟨"42", by decide⟩]) ++
        c8Event.attachments.map (fun a =>
          Segment.attachment ⟨a.filename, descOf a.description⟩ none) ++
        c8Event.embeds.map Segment.embed ++
        c8Event.components.map MessageSegment.component) :=
  ⟨by decide, c8_from_guild_message_order c8Event
    [Segment.text "hi ", Segment.mention_user ⟨"42", by decide⟩] (by decide)⟩

/-- C9: the component segment factory wraps a bare button or select menu
into a row-grouping `ActionRow` before storing it, so no component segment
built by the factory holds a standalone interactive element as payload. -/
theorem c9_component_wrapped :
    (∀ l, MessageSegment.component (.button l)
      = Segment.component (.actionRow [.button l])) ∧
    (∀ i, MessageSegment.component (.selectMenu i)
      = Segment.component (.actionRow [.selectMenu i])) ∧
    ∀ c : Component,
      (Segment.componentOf (MessageSegment.component c)).all
        (fun p => !p.isInteractive) = true := by
  refine ⟨fun l => rfl, fun i => rfl, fun c => ?_⟩
  cases c <;> rfl

/-- C10: the attachment factory's keyword arguments are conditionally
ignored by source type — a `File` source discards the `content` argument
and uses the file's own bytes, an `AttachmentSend` source discards the
`description` argument and uses the metadata's description, and any other
source type raises a `TypeError` naming the accepted types. -/
theorem c10_attachment_dispatch (f : File) (a : AttachmentSend)
    (d d' : Option String) (c c' : Option (List Nat)) :
    (MessageSegment.attachment (.file f) d c = MessageSegment.attachment (.file f) d c') ∧
    (MessageSegment.attachment (.file f) d c
      = .ok (Segment.attachment ⟨f.filename, d⟩ (some ⟨f.filename, f.content⟩))) ∧
    (MessageSegment.attachment (.attachmentSend a) d c
      = MessageSegment.attachment (.attachmentSend a) d' c) ∧
    (MessageSegment.attachment (.attachmentSend a) d none
      = .ok (Segment.attachment ⟨a.filename, a.description⟩ none)) ∧
    (MessageSegment.attachment .other d c
      = .error "file must be str, File or AttachmentSend") :=
  ⟨rfl, rfl, rfl, rfl, rfl⟩

end Discord
